import Mathlib

/-!
Shallow embedding of the nanomatch tokenizer (src/lib/parsers.js) and proofs
about its lexical rules.  JS strings are modelled as `List Char`; each rule's
anchored regular expression is translated into a matching function that
returns the consumed prefix (JS `m[0]`) together with the captures the rule
uses.  The snapdragon-style driver (rules tried in registration order, first
match consumes) is modelled by `step` and `runAux`.
-/

namespace Nanomatch

/-- JS strings from the source are modelled as lists of characters. -/
abbrev Str := List Char

/-- Line terminators: the characters a JS regex `.` (without the `s` flag)
does not match. -/
def lineTerm (c : Char) : Bool :=
  c = '\n' || c = '\r' || c = '\u2028' || c = '\u2029'

/-- Longest run of leading characters satisfying `p` (what a greedy `X+`
consumes for a one-character pattern `X`). -/
def takeRun (p : Char → Bool) : Str → Str
  | [] => []
  | c :: t => if p c then c :: takeRun p t else []

/-- Remainder of the input after `takeRun p`. -/
def dropRun (p : Char → Bool) : Str → Str
  | [] => []
  | c :: t => if p c then dropRun p t else c :: t

/-- Recognized configuration options (`opts` in the source). -/
structure Opts where
  noglobstar : Bool := false
  nonegate : Bool := false
  strictOpen : Bool := false
deriving Repr, DecidableEq

/-- Default configuration: no option set. -/
def o0 : Opts := {}

/-- Node kinds, one per rule that emits a node (`type` strings in the source). -/
inductive NType
  | escape | quoted | nnot | dot | plus | qmark | globstar | star
  | slash | backslash | square | bracket | text
deriving Repr, DecidableEq

/-- A produced token.  Fields other than `type` and `val` are `Option`s so
that each node carries exactly the fields the corresponding rule sets
(source spans are ignored throughout, as in the claims). -/
structure Node where
  type : NType
  val : Str := []
  parsed : Option Str := none
  dotfiles : Option Bool := none
  insideBrace : Option Bool := none
  insideParen : Option Bool := none
  negated : Option Str := none
  inner : Option Str := none
  close : Option Str := none
  escaped : Option Bool := none
deriving Repr, DecidableEq

/-- Parser state: the scan cursor (`input`, `parsed`), the lexer state
(`parser.state` fields plus the flags set lazily by rules), the two
out-of-band AST strings mutated by the `not` rule (`this.bos.val`,
`this.append`), and the structural-context flags consulted via
`this.isInside(...)` (never modified by any rule in this file). -/
structure PState where
  input : Str
  parsed : Str := []
  slashes : Nat := 0
  paths : List Str := []
  dotFlag : Bool := false
  metachar : Bool := false
  qmarkFlag : Bool := false
  globstarFlag : Bool := false
  starFlag : Bool := false
  strictOpenFlag : Bool := false
  addPre : Bool := false
  bosVal : Str := []
  appendVal : Str := []
  insideBracket : Bool := false
  insideBrace : Bool := false
  insideParen : Bool := false
deriving Repr, DecidableEq

/-- Initial state for tokenizing a pattern. -/
def initState (p : Str) : PState := { input := p }

/-- Model of `this.match(re)` on success: append `m[0]` to `parsed` and drop it from
the input. -/
def consumeMatch (s : PState) (m0 : Str) : PState :=
  { s with parsed := s.parsed ++ m0, input := s.input.drop m0.length }

/-! ### Matchers for the rule regexes -/

/-- Regex `^(?:\\(.)|([$^]))` of the escape rule: returns `(m0, val)` where
`val` is `m[2] || m[1]`. -/
def escapeMatch (l : Str) : Option (Str × Str) :=
  match l with
  | '\\' :: c :: _ => if lineTerm c then none else some (['\\', c], [c])
  | c :: _ => if c = '$' ∨ c = '^' then some ([c], [c]) else none
  | [] => none

/-- Regex `^\?+(?!\()` of the qmark rule, with the engine's backtracking on
the greedy `\?+` against the look-ahead. -/
def qmarkMatch (l : Str) : Option Str :=
  let r := takeRun (fun c => c = '?') l
  if r = [] then none
  else if (l.drop r.length).head? = some '(' then
    if 2 ≤ r.length then some (r.take (r.length - 1)) else none
  else some r

/-- Regex `^\*{2}(?![*(])(?=[,)/]|$)` of the globstar rule. -/
def globstarMatch (l : Str) : Option Str :=
  match l with
  | '*' :: '*' :: rest =>
    let la1 := match rest.head? with
      | some c => !(c = '*' || c = '(')
      | none => true
    let la2 := match rest.head? with
      | some c => (c = ',' || c = ')' || c = '/')
      | none => true
    if la1 && la2 then some ['*', '*'] else none
  | _ => none

/-- Alternative `[*]{2}(?![(/]|$)` of the star rule. -/
def starA3 (l : Str) : Option Str :=
  if l.take 2 = ['*', '*'] then
    match (l.drop 2).head? with
    | some c => if c = '(' ∨ c = '/' then none else some ['*', '*']
    | none => none
  else none

/-- Alternative `\*(?=\*\()` of the star rule. -/
def starA4 (l : Str) : Option Str :=
  if l.take 3 = ['*', '*', '('] then some ['*'] else none

/-- Regex `^(?:\*(?![*(])|[*]{3,}(?!\()|[*]{2}(?![(/]|$)|\*(?=\*\())` of the
star rule; alternatives are tried in source order, with the engine's
backtracking on the greedy `[*]{3,}`. -/
def starMatch (l : Str) : Option Str :=
  match l with
  | '*' :: t =>
    let r := takeRun (fun c => c = '*') ('*' :: t)
    let a1 := match t.head? with
      | some c => !(c = '*' || c = '(')
      | none => true
    if a1 then some ['*']
    else if 3 ≤ r.length then
      if (('*' :: t).drop r.length).head? = some '(' then
        if 4 ≤ r.length then some (r.take (r.length - 1))
        else match starA3 ('*' :: t) with
          | some m => some m
          | none => starA4 ('*' :: t)
      else some r
    else match starA3 ('*' :: t) with
      | some m => some m
      | none => starA4 ('*' :: t)
  | _ => none

/-- Characters the backslash rule's look-ahead `(?![*+?(){}[\]'"])` rejects. -/
def bsExcluded (c : Char) : Bool :=
  c = '*' || c = '+' || c = '?' || c = '(' || c = ')' ||
  c = Char.ofNat 123 || c = Char.ofNat 125 || c = '[' || c = ']' ||
  c = '\'' || c = '"'

/-- Regex `^\\(?![*+?(){}[\]'"])` of the backslash rule. -/
def backslashMatch (l : Str) : Option Str :=
  match l with
  | '\\' :: rest =>
    match rest.head? with
    | some c => if bsExcluded c then none else some ['\\']
    | none => some ['\\']
  | _ => none

/-- Regex `^\[([^!^\\])\]` of the square rule. -/
def squareMatch (l : Str) : Option (Str × Char) :=
  match l with
  | '[' :: c :: ']' :: _ =>
    if c = '!' ∨ c = '^' ∨ c = '\\' then none else some (['[', c, ']'], c)
  | _ => none

/-! ### The bracket regex `^(?:\[([!^]?)([^\]]+|\]-)(\]|[^*+?]+)|\[)` -/

/-- Group 3 `(\]|[^*+?]+)`: a literal `]`, else the longest nonempty run of
characters other than `*`, `+`, `?`. -/
def m3Match (u : Str) : Option Str :=
  match u with
  | ']' :: _ => some [']']
  | _ =>
    let r := takeRun (fun c => !(c = '*' || c = '+' || c = '?')) u
    if r = [] then none else some r

/-- Backtracking for the greedy `[^\]]+` of group 2: try prefix lengths
`k, k-1, ..., 1` of `t`, pairing each with group 3 on the rest. -/
def tryAlt1 (t : Str) : Nat → Option (Str × Str)
  | 0 => none
  | k + 1 =>
    match m3Match (t.drop (k + 1)) with
    | some m3 => some (t.take (k + 1), m3)
    | none => tryAlt1 t k

/-- Groups 2 and 3 together: `([^\]]+|\]-)(\]|[^*+?]+)` with full
backtracking, alternatives in source order. -/
def m2m3 (t : Str) : Option (Str × Str) :=
  let r := takeRun (fun c => !(c = ']')) t
  match tryAlt1 t r.length with
  | some x => some x
  | none =>
    match t with
    | ']' :: '-' :: u =>
      match m3Match u with
      | some m3 => some ([']', '-'], m3)
      | none => none
    | _ => none

/-- The captures of a bracket-regex match (`none` = group did not
participate, as for the bare `\[` alternative). -/
structure BrM where
  m0 : Str
  m1 : Option Str := none
  m2 : Option Str := none
  m3 : Option Str := none
deriving Repr, DecidableEq

/-- The whole bracket regex.  The optional `([!^]?)` is greedy and
backtracks; the bare `\[` alternative applies only when the main
alternative fails. -/
def bracketMatch (l : Str) : Option BrM :=
  match l with
  | '[' :: t =>
    let att1 : Option BrM :=
      match t with
      | c :: t' =>
        if c = '!' ∨ c = '^' then
          match m2m3 t' with
          | some (m2, m3) =>
            some { m0 := '[' :: c :: (m2 ++ m3), m1 := some [c], m2 := some m2, m3 := some m3 }
          | none => none
        else none
      | [] => none
    match att1 with
    | some r => some r
    | none =>
      match m2m3 t with
      | some (m2, m3) =>
        some { m0 := '[' :: (m2 ++ m3), m1 := some [], m2 := some m2, m3 := some m3 }
      | none => some { m0 := ['['] }
  | _ => none

/-- Rest of a string after its leading run of backslashes. -/
def dropBsRun : Str → Str
  | '\\' :: t => dropBsRun t
  | l => l

/-- JS `str.replace(/\\\\+/, '\\\\')`: collapse the first run of two or more
backslashes to exactly two. -/
def collapseBS : Str → Str
  | '\\' :: '\\' :: t => '\\' :: '\\' :: dropBsRun t
  | c :: t => c :: collapseBS t
  | [] => []

/-- The character-by-character scan of the bracket rule's escaped-`]` edge
branch: returns `(inner addition, close, remaining input)`; every scanned
character, including a closing `]`, is consumed. -/
def bscan : Str → Str × Str × Str
  | [] => ([], [], [])
  | c :: t =>
    if c = ']' then ([], [']'], t)
    else
      let (ia, cl, rest) := bscan t
      (c :: ia, cl, rest)

/-! ### The characters of the text rule -/

/-- The character class of `NOT_REGEX = '[\[!*+?$^"\'.\\/]+'`: characters
claimed by structural rules, which the catch-all text run must not start
with. -/
def textSet (c : Char) : Bool :=
  c = '[' || c = '!' || c = '*' || c = '+' || c = '?' || c = '$' ||
  c = '^' || c = '"' || c = '\'' || c = '.' || c = '\\' || c = '/'

/-- Alternative `(?:(?!(?:[...]+)).)+` of the text regex: the longest
nonempty run of characters that are neither in the negated class nor line
terminators (JS `.`). -/
def textRun (l : Str) : Option Str :=
  let r := takeRun (fun c => !(textSet c) && !(lineTerm c)) l
  if r = [] then none else some r

/-- The full text regex built by `createTextRegex`:
`^(?:[*]\((?=.)|(?:(?!(?:[...]+)).)+)`, alternatives in order. -/
def textMatch (l : Str) : Option Str :=
  match l with
  | '*' :: '(' :: c :: _ => if lineTerm c then textRun l else some ['*', '(']
  | _ => textRun l

/-! ### advanceTo -/

/-- The token record built by `advanceTo`. -/
structure AdvTok where
  len : Nat
  val : Str
  esc : Str
deriving Repr, DecidableEq

/-- Mutable locals of `advanceTo` (`ch`, `idx`) together with the token
being built; `ch = none` models JS `charAt` past the end returning `''`. -/
structure AdvSt where
  ch : Option Char
  idx : Nat
  len : Nat
  val : Str
  esc : Str
deriving Repr, DecidableEq

/-- Model of `input.charAt(i)`, with `none` for the empty string past the end. -/
def chAt (l : Str) (i : Nat) : Option Char := (l.drop i).head?

/-- One call of the inner `advance()` closure of `advanceTo`.  Note the JS
quirks kept here: when `ch` is the empty string (`none`) the guard
`ch !== '\\'` still holds, so a lone backslash is appended to `esc`; and
after moving, a new backslash triggers a double recursive `advance()`.
The fuel only bounds recursion depth, which is at most `l.length + 2`. -/
def advStep (l : Str) : Nat → AdvSt → AdvSt
  | 0, s => s
  | f + 1, s =>
    let s1 :=
      if s.ch = some '\\' then s
      else { s with esc := s.esc ++ '\\' :: s.ch.toList, val := s.val ++ s.ch.toList }
    let s2 := { s1 with ch := chAt l (s1.idx + 1), idx := s1.idx + 1, len := s1.len + 1 }
    if s2.ch = some '\\' then advStep l f (advStep l f s2) else s2

/-- The `while (ch && ch !== endChar)` loop of `advanceTo`. -/
def advLoop (l : Str) (endc : Char) : Nat → AdvSt → AdvSt
  | 0, s => s
  | f + 1, s =>
    match s.ch with
    | none => s
    | some c => if c = endc then s else advLoop l endc f (advStep l (l.length + 2) s)

/-- Model of `advanceTo(input, endChar)` from the source. -/
def advanceTo (l : Str) (endc : Char) : AdvTok :=
  let s0 : AdvSt := { ch := chAt l 0, idx := 0, len := 1, val := [], esc := [] }
  let sF := advLoop l endc (l.length + 2) s0
  { len := sF.len, val := sF.val, esc := sF.esc }

/-! ### The rules, in registration order -/

/-- Rule `prefix`: start-of-pattern `./` or `.\`; consumes without emitting
a node, sets `strictOpen`/`addPrefix` state flags. -/
def rulePre (o : Opts) (s : PState) : Option PState :=
  if s.parsed ≠ [] then none
  else match s.input with
    | '.' :: c :: _ =>
      if c = '\\' ∨ c = '/' then
        some { consumeMatch s ['.', c] with strictOpenFlag := o.strictOpen, addPre := true }
      else none
    | _ => none

/-- Rule `escape`. -/
def ruleEscape (_o : Opts) (s : PState) : Option (Node × PState) :=
  if s.insideBracket then none
  else match escapeMatch s.input with
    | some (m0, v) => some ({ type := .escape, val := v }, consumeMatch s m0)
    | none => none

/-- Rule `quoted`: a quote with no later matching quote degrades to an
escape node for the quote alone; otherwise `advanceTo` scans the span and
the node value is `tok.esc`. -/
def ruleQuoted (_o : Opts) (s : PState) : Option (Node × PState) :=
  match s.input with
  | q :: t =>
    if q = '"' ∨ q = '\'' then
      let s1 := { s with parsed := s.parsed ++ [q], input := t }
      if q ∈ t then
        let tok := advanceTo t q
        some ({ type := .quoted, val := tok.esc }, { s1 with input := s1.input.drop tok.len })
      else
        some ({ type := .escape, val := [q] }, s1)
    else none
  | [] => none

/-- The open-wrap string `'(?!^(?:'` written to `this.bos.val`. -/
def openWrap : Str := ['(', '?', '!', '^', '(', '?', ':']

/-- The close-wrap string `')$).*'` written to `this.append`. -/
def closeWrap : Str := [')', '$', ')', '.', '*']

/-- Rule `not`: regex `^!+`, with the leading-negation prefix/suffix
mutation. -/
def ruleNot (o : Opts) (s : PState) : Option (Node × PState) :=
  let parsed0 := s.parsed
  let m0 := takeRun (fun c => c = '!') s.input
  if m0 = [] then none
  else
    let s1 := consumeMatch s m0
    let isNeg : Bool := m0.length % 2 = 1
    let val1 := if parsed0 = [] ∧ isNeg = false then [] else m0
    if parsed0 = [] ∧ isNeg = true ∧ o.nonegate = false then
      some ({ type := .nnot, val := [] },
        { s1 with bosVal := openWrap, appendVal := closeWrap })
    else
      some ({ type := .nnot, val := val1 }, s1)

/-- Rule `dot`: regex `^\.+`. -/
def ruleDot (_o : Opts) (s : PState) : Option (Node × PState) :=
  let parsed0 := s.parsed
  let m0 := takeRun (fun c => c = '.') s.input
  if m0 = [] then none
  else
    let isdot : Bool :=
      decide (m0 = ['.'] ∧ (parsed0 = [] ∨ parsed0.getLast? = some '/'))
    some ({ type := .dot, dotfiles := some isdot, val := m0 },
      { consumeMatch s m0 with dotFlag := isdot })

/-- Rule `plus`: regex `^\+(?!\()` (registered with `.capture`). -/
def rulePlus (_o : Opts) (s : PState) : Option (Node × PState) :=
  match s.input with
  | '+' :: t =>
    if t.head? = some '(' then none
    else some ({ type := .plus, val := ['+'] }, consumeMatch s ['+'])
  | _ => none

/-- Rule `qmark`. -/
def ruleQmark (_o : Opts) (s : PState) : Option (Node × PState) :=
  match qmarkMatch s.input with
  | some m0 =>
    some ({ type := .qmark, parsed := some s.parsed, val := m0 },
      { consumeMatch s m0 with metachar := true, qmarkFlag := true })
  | none => none

/-- The `while (this.input.slice(0, 4) === '/**/') this.input = this.input.slice(3)`
loop of the globstar rule (redundant-globstar folding); fuel bounds the
iteration count by the input length. -/
def foldGs : Nat → Str → Str
  | 0, l => l
  | f + 1, l =>
    if l.take 4 = ['/', '*', '*', '/'] then foldGs f (l.drop 3) else l

/-- Rule `globstar`: degrades to a star-typed node when `noglobstar` is
set; folds following `/**/` runs; records the enclosing context. -/
def ruleGlobstar (o : Opts) (s : PState) : Option (Node × PState) :=
  match globstarMatch s.input with
  | none => none
  | some m0 =>
    let parsed0 := s.parsed
    let s1 := consumeMatch s m0
    let s2 := { s1 with metachar := true, input := foldGs s1.input.length s1.input }
    if o.noglobstar = false then
      some ({ type := .globstar, val := ['*', '*'], parsed := some parsed0,
              insideBrace := some s.insideBrace, insideParen := some s.insideParen },
        { s2 with globstarFlag := true })
    else
      some ({ type := .star, val := ['*'], parsed := some parsed0,
              insideBrace := some s.insideBrace, insideParen := some s.insideParen },
        { s2 with starFlag := true })

/-- Rule `star`. -/
def ruleStar (_o : Opts) (s : PState) : Option (Node × PState) :=
  match starMatch s.input with
  | some m0 =>
    some ({ type := .star, val := m0 },
      { consumeMatch s m0 with metachar := true, starFlag := true })
  | none => none

/-- Rule `slash`. -/
def ruleSlash (_o : Opts) (s : PState) : Option (Node × PState) :=
  match s.input with
  | '/' :: _ =>
    some ({ type := .slash, val := ['/'] },
      { consumeMatch s ['/'] with slashes := s.slashes + 1 })
  | _ => none

/-- Rule `backslash`: the regex consumes a single backslash; the node value
is a lone backslash inside a bracket context, and the `val.length > 1`
branch of the source collapses longer matches to a double backslash. -/
def ruleBackslash (_o : Opts) (s : PState) : Option (Node × PState) :=
  match backslashMatch s.input with
  | some m0 =>
    let val :=
      if s.insideBracket then ['\\']
      else if 1 < m0.length then ['\\', '\\']
      else m0
    some ({ type := .backslash, val := val }, consumeMatch s m0)
  | none => none

/-- Rule `square`. -/
def ruleSquare (_o : Opts) (s : PState) : Option (Node × PState) :=
  if s.insideBracket then none
  else match squareMatch s.input with
    | some (m0, c) => some ({ type := .square, val := [c] }, consumeMatch s m0)
    | none => none

/-- Rule `bracket`, including the escaped-`]` edge branch (modelled with the
assignment to `close` taking effect, as the surrounding logic intends). -/
def ruleBracket (_o : Opts) (s : PState) : Option (Node × PState) :=
  match bracketMatch s.input with
  | none => none
  | some m =>
    let s1 := consumeMatch s m.m0
    let negated : Str :=
      match m.m1 with
      | some l => if l = [] then [] else ['^']
      | none => []
    let inner0 : Str :=
      match m.m2 with
      | some l => collapseBS l
      | none => []
    let close0 : Str := match m.m3 with | some l => l | none => []
    let val0 : Str :=
      match m.m2 with
      | some l => if inner0.length < l.length then collapseBS m.m0 else m.m0
      | none => m.m0
    if inner0 = [] ∧ s1.input.take 2 = ['\\', ']'] then
      let s2 := { s1 with input := s1.input.drop 2 }
      let r := bscan s2.input
      let innerF := ['\\', ']'] ++ r.1
      let closeF := if r.2.1 = [] then close0 else r.2.1
      some ({ type := .bracket, val := val0,
              escaped := some (decide (closeF ≠ [']'])),
              negated := some negated, inner := some innerF, close := some closeF },
        { s2 with input := r.2.2 })
    else
      some ({ type := .bracket, val := val0,
              escaped := some (decide (close0 ≠ [']'])),
              negated := some negated, inner := some inner0, close := some close0 }, s1)

/-- Rule `text` (catch-all). -/
def ruleText (_o : Opts) (s : PState) : Option (Node × PState) :=
  if s.insideBracket then none
  else match textMatch s.input with
    | some m0 => some ({ type := .text, val := m0 }, consumeMatch s m0)
    | none => none

/-! ### The driver -/

/-- First-of-two for options (`a` wins when it is `some`). -/
def ob {α : Type} (a b : Option α) : Option α :=
  match a with
  | some x => some x
  | none => b

/-- Wrap a node-producing rule into the driver's step type. -/
def wrapN (r : Opts → PState → Option (Node × PState)) (o : Opts) (s : PState) :
    Option (Option Node × PState) :=
  match r o s with
  | some (n, s') => some (some n, s')
  | none => none

/-- Wrap the node-less prefix rule into the driver's step type. -/
def wrapP (r : Opts → PState → Option PState) (o : Opts) (s : PState) :
    Option (Option Node × PState) :=
  match r o s with
  | some s' => some (none, s')
  | none => none

/-- One attempt of the rule set at the current cursor: rules tried in
registration order, first match wins; the prefix rule consumes without
emitting a node. -/
def step (o : Opts) (s : PState) : Option (Option Node × PState) :=
  ob (wrapP rulePre o s)
  (ob (wrapN ruleEscape o s)
  (ob (wrapN ruleQuoted o s)
  (ob (wrapN ruleNot o s)
  (ob (wrapN ruleDot o s)
  (ob (wrapN rulePlus o s)
  (ob (wrapN ruleQmark o s)
  (ob (wrapN ruleGlobstar o s)
  (ob (wrapN ruleStar o s)
  (ob (wrapN ruleSlash o s)
  (ob (wrapN ruleBackslash o s)
  (ob (wrapN ruleSquare o s)
  (ob (wrapN ruleBracket o s)
  (wrapN ruleText o s)))))))))))))

/-- Driver loop: repeat `step` until the input is exhausted (`true`) or no
rule matches (`false`, the stuck case).  Fuel bounds the number of
iterations; every successful step consumes at least one character, so
`input.length + 1` fuel is always sufficient. -/
def runAux (o : Opts) : Nat → PState → List Node × PState × Bool
  | 0, s => ([], s, s.input.isEmpty)
  | f + 1, s =>
    if s.input = [] then ([], s, true)
    else
      match step o s with
      | none => ([], s, false)
      | some (mn, s') =>
        let r := runAux o f s'
        ((match mn with | some n => n :: r.1 | none => r.1), r.2)

/-- Tokenize a whole pattern: the node sequence, the final state, and
whether the entire input was consumed. -/
def tokenize (o : Opts) (p : Str) : List Node × PState × Bool :=
  runAux o (p.length + 1) (initState p)


/-! ## Helper lemmas -/

theorem ruleGlobstar_isSome (o : Opts) (s : PState) :
    (ruleGlobstar o s).isSome = (globstarMatch s.input).isSome := by
  unfold ruleGlobstar
  cases h : globstarMatch s.input
  · simp
  · simp only [Option.isSome_some]
    split <;> simp

/-- The globstar rule's firing condition, phrased the way the specification
words it: the remaining input starts with exactly `**`, not followed by `*`
or `(`, and followed by `,`, `)`, `/`, or end-of-input. -/
def globstarSpecCond (l : Str) : Bool :=
  decide (l.take 2 = ['*', '*']) &&
  (match (l.drop 2).head? with
   | none => true
   | some c => !(c = '*' || c = '(') && (c = ',' || c = ')' || c = '/'))

theorem globstarMatch_isSome_eq (l : Str) : (globstarMatch l).isSome = globstarSpecCond l := by
  unfold globstarMatch
  split
  · rename_i rest
    unfold globstarSpecCond
    cases hr : rest.head? with
    | none => simp [hr]
    | some c => simp only [hr, List.take, List.drop]; split <;> rename_i hc <;> simp_all
  · rename_i h
    unfold globstarSpecCond
    rcases l with _ | ⟨a, _ | ⟨b, r⟩⟩
    · simp
    · simp
    · have hb : ¬(a = '*' ∧ b = '*') := by
        rintro ⟨rfl, rfl⟩; exact h r rfl
      simp only [List.take, List.drop, Option.isSome_none]
      by_cases ha : a = '*' <;> by_cases hbb : b = '*' <;> simp_all

/-! ## Claim C2 -/

/-- C2: for the pattern `**` with `noglobstar` unset, tokenization emits
exactly one globstar node with value `**`; with `noglobstar := true` it
emits exactly one star node with value `*`; and in general the globstar
rule fires at a cursor position if and only if the remaining input starts
with exactly `**` not followed by `*` or `(` and followed by `,`, `)`,
`/`, or end-of-input. -/
theorem c2_star_vs_globstar :
    ((tokenize o0 ("**".data)).1 =
      [{ type := .globstar, val := ['*', '*'], parsed := some [],
         insideBrace := some false, insideParen := some false }]) ∧
    ((tokenize { noglobstar := true } ("**".data)).1 =
      [{ type := .star, val := ['*'], parsed := some [],
         insideBrace := some false, insideParen := some false }]) ∧
    (∀ (o : Opts) (s : PState), (ruleGlobstar o s).isSome = globstarSpecCond s.input) := by
  refine ⟨by decide, by decide, fun o s => ?_⟩
  rw [ruleGlobstar_isSome, globstarMatch_isSome_eq]

/-- Witness for C2's universally quantified conjunct at a concrete state. -/
theorem c2_star_vs_globstar_witness :
    (ruleGlobstar o0 (initState ("**/x".data))).isSome = globstarSpecCond ("**/x".data) :=
  c2_star_vs_globstar.2.2 o0 (initState ("**/x".data))

/-! ## Claim C3 -/

/-- C3: tokenizing `a/**/**/**/b` yields the same node sequence as
tokenizing `a/**/b` (text, slash, one globstar node, slash, text), because
the globstar rule folds every immediately following `/**/` run. -/
theorem c3_globstar_folding :
    (tokenize o0 ("a/**/**/**/b".data)).1 = (tokenize o0 ("a/**/b".data)).1 ∧
    (tokenize o0 ("a/**/b".data)).1 =
      [{ type := .text, val := ['a'] }, { type := .slash, val := ['/'] },
       { type := .globstar, val := ['*', '*'], parsed := some ['a', '/'],
         insideBrace := some false, insideParen := some false },
       { type := .slash, val := ['/'] }, { type := .text, val := ['b'] }] := by
  constructor
  · decide
  · decide

/-! ## Claim C4 -/

/-- C4: tokenizing `!foo` with negation enabled sets the AST's
beginning-of-string value to the open-wrap sequence and the append suffix
to the matching close-wrap sequence and yields a `not` node with empty
value followed by a text node `foo`; in general, whenever nothing has been
parsed yet, the matched `!` run has odd length and `nonegate` is not true,
the not rule performs exactly this mutation and empties the node value. -/
theorem c4_negation_wrapping :
    ((tokenize o0 ("!foo".data)).1 =
        [{ type := .nnot, val := [] }, { type := .text, val := "foo".data }] ∧
      (tokenize o0 ("!foo".data)).2.1.bosVal = openWrap ∧
      (tokenize o0 ("!foo".data)).2.1.appendVal = closeWrap) ∧
    (∀ (o : Opts) (s : PState) (n : Node) (s' : PState),
      s.parsed = [] → o.nonegate = false →
      (takeRun (fun c => c = '!') s.input).length % 2 = 1 →
      ruleNot o s = some (n, s') →
      n.val = [] ∧ s'.bosVal = openWrap ∧ s'.appendVal = closeWrap) := by
  refine ⟨⟨by decide, by decide, by decide⟩, fun o s n s' hp ho hodd h => ?_⟩
  have hne : takeRun (fun c => c = '!') s.input ≠ [] := by
    intro he
    rw [he] at hodd
    simp at hodd
  have hneg : (decide ((takeRun (fun c => c = '!') s.input).length % 2 = 1)) = true := by
    simp [hodd]
  simp only [ruleNot] at h
  rw [if_neg hne, hp, ho] at h
  split at h
  · simp only [Option.some.injEq, Prod.mk.injEq] at h
    obtain ⟨hn, hs⟩ := h
    subst hn; subst hs
    exact ⟨rfl, rfl, rfl⟩
  · rename_i hcond
    exact absurd ⟨rfl, hneg, rfl⟩ hcond

/-- Witness for C4's universally quantified conjunct at the concrete
pattern `!foo`. -/
theorem c4_negation_wrapping_witness :
    ({ type := NType.nnot, val := [] } : Node).val = [] ∧
    ({ input := "foo".data, parsed := ['!'], bosVal := openWrap,
       appendVal := closeWrap } : PState).bosVal = openWrap ∧
    ({ input := "foo".data, parsed := ['!'], bosVal := openWrap,
       appendVal := closeWrap } : PState).appendVal = closeWrap :=
  c4_negation_wrapping.2 o0 (initState ("!foo".data)) _ _ rfl rfl (by decide) (by decide)

/-! ## Claim C6 -/

/-- C6: when the quoted rule matches an opening quote whose character does
not occur again in the remaining input, it yields an escape node carrying
exactly the quote character and consumes only the quote itself. -/
theorem c6_lone_quote_escape :
    ∀ (o : Opts) (s : PState) (q : Char) (t : Str),
      s.input = q :: t → (q = '"' ∨ q = '\'') → q ∉ t →
      ruleQuoted o s = some ({ type := .escape, val := [q] },
        { s with parsed := s.parsed ++ [q], input := t }) := by
  intro o s q t hi hq hmem
  unfold ruleQuoted
  rw [hi]
  simp [hq, hmem]

/-- Witness for C6 at the concrete input `'ab`. -/
theorem c6_lone_quote_escape_witness :
    ruleQuoted o0 (initState ("'ab".data)) =
      some ({ type := .escape, val := ['\''] },
        { initState ("'ab".data) with parsed := [] ++ ['\''], input := "ab".data }) :=
  c6_lone_quote_escape o0 (initState ("'ab".data)) '\'' ("ab".data) rfl (Or.inr rfl)
    (by decide)

/-! ## Claim C8 -/

/-- C8: whenever the backslash rule matches, the node value is a single
backslash when inside a bracket context; outside a bracket context a
matched run longer than one backslash collapses to exactly two
backslashes (the rule's regex in fact always consumes exactly one
backslash, so the second case never arises). -/
theorem c8_backslash_value :
    ∀ (o : Opts) (s : PState) (n : Node) (s' : PState),
      ruleBackslash o s = some (n, s') →
      (s.insideBracket = true → n.val = ['\\']) ∧
      (s.insideBracket = false →
        ∀ m0, backslashMatch s.input = some m0 → 1 < m0.length → n.val = ['\\', '\\']) := by
  intro o s n s' h
  unfold ruleBackslash at h
  cases hb : backslashMatch s.input with
  | none => rw [hb] at h; exact absurd h (by simp)
  | some m0 =>
    rw [hb] at h
    simp only [Option.some.injEq, Prod.mk.injEq] at h
    obtain ⟨rfl, rfl⟩ := h
    constructor
    · intro hin; simp [hin]
    · intro hin m1 hm1 hlen
      have hm := Option.some.inj hm1
      subst hm
      simp [hin, hlen]

/-- Witness for C8 at a concrete bracket-context state. -/
theorem c8_backslash_value_witness :
    (({ initState ("\\a".data) with insideBracket := true } : PState).insideBracket = true →
      ({ type := NType.backslash, val := ['\\'] } : Node).val = ['\\']) ∧
    (({ initState ("\\a".data) with insideBracket := true } : PState).insideBracket = false →
      ∀ m0, backslashMatch ("\\a".data) = some m0 → 1 < m0.length →
        ({ type := NType.backslash, val := ['\\'] } : Node).val = ['\\', '\\']) :=
  c8_backslash_value o0 { initState ("\\a".data) with insideBracket := true }
    { type := NType.backslash, val := ['\\'] }
    { input := "a".data, parsed := ['\\'], insideBracket := true } (by decide)

/-! ## Claim C10 -/

/-- C10 counterexample: at input `*(` followed by a newline, the remaining
input begins with `*(` and a further character follows, yet the text rule
does not match (the look-ahead `(?=.)` rejects line terminators). -/
theorem c10_cex_line_terminator :
    (['*', '(', '\n'] : Str).take 2 = ['*', '('] ∧ (['*', '(', '\n'] : Str).length = 3 ∧
    ruleText o0 (initState ['*', '(', '\n']) = none := by decide

/-- C10 (amended): at every cursor position outside a bracket context where
the remaining input begins with `*(` followed by at least one further
character that is not a line terminator, the text rule matches and yields a
text node with value exactly `*(`; when the remaining input is exactly `*(`,
no rule in the set matches. -/
theorem c10_text_star_paren :
    (∀ (o : Opts) (s : PState) (c : Char) (t : Str),
      s.insideBracket = false → s.input = '*' :: '(' :: c :: t → lineTerm c = false →
      ruleText o s = some ({ type := .text, val := ['*', '('] }, consumeMatch s ['*', '('])) ∧
    (∀ (o : Opts) (s : PState), s.input = ['*', '('] → step o s = none) := by
  constructor
  · intro o s c t hb hi hc
    unfold ruleText textMatch
    rw [hi]
    simp [hb, hc]
  · intro o s hi
    simp +decide [step, ob, wrapN, wrapP, rulePre, ruleEscape, ruleQuoted, ruleNot, ruleDot,
      rulePlus, ruleQmark, ruleGlobstar, ruleStar, ruleSlash, ruleBackslash, ruleSquare,
      ruleBracket, ruleText, escapeMatch, qmarkMatch, globstarMatch, starMatch, starA3,
      starA4, backslashMatch, squareMatch, bracketMatch, m2m3, m3Match, tryAlt1,
      textMatch, textRun, takeRun, hi]

/-- Witness for C10's first conjunct at the concrete input `*(x`. -/
theorem c10_text_star_paren_witness :
    ruleText o0 (initState ("*(x".data)) =
      some ({ type := .text, val := ['*', '('] },
        consumeMatch (initState ("*(x".data)) ['*', '(']) :=
  c10_text_star_paren.1 o0 (initState ("*(x".data)) 'x' [] rfl rfl (by decide)

/-! ## Claim C1: counterexample -/

/-- C1 counterexample: the non-empty input `*(` gets stuck at position 0:
no rule (including the catch-all text rule) matches, and tokenization does
not consume the input. -/
theorem c1_cex_stuck_input :
    (("*(".data : Str) ≠ []) ∧ (tokenize o0 ("*(".data)).2.2 = false ∧
    (tokenize o0 ("*(".data)).2.1.input = "*(".data := by decide

/-! ## Claim C5 -/

/-- C5 counterexample: for the quoted span in `'a'` the unescaped literal
content is `a`, but the produced quoted node's value is `\a` — a backslash
is added before the character, so the value is not the unescaped content. -/
theorem c5_cex_escaped_value :
    (tokenize o0 ("'a'".data)).1 = [{ type := .quoted, val := ['\\', 'a'] }] ∧
    (['\\', 'a'] : Str) ≠ ['a'] := by decide

/-- Every character prefixed with a backslash: the shape of `tok.esc`
relative to `tok.val` in `advanceTo`. -/
def escapeEach : Str → Str
  | [] => []
  | c :: t => '\\' :: c :: escapeEach t

theorem escapeEach_append (a b : Str) : escapeEach (a ++ b) = escapeEach a ++ escapeEach b := by
  induction a with
  | nil => rfl
  | cons c t ih => simp [escapeEach, ih]

theorem chAt_none_succ (l : Str) (i : Nat) (h : chAt l i = none) : chAt l (i + 1) = none := by
  unfold chAt at h ⊢
  have hd : l.drop i = [] := by
    cases hh : l.drop i with
    | nil => rfl
    | cons a u => rw [hh] at h; simp at h
  have : l.drop (i + 1) = (l.drop i).drop 1 := by
    rw [List.drop_drop]
  rw [this, hd]
  rfl

/-- The invariant of the `advance()` closure: `ch` mirrors `charAt idx`,
and `esc` is `val` with every character backslash-prefixed, except for
trailing stray backslashes that can only appear once the scan has run off
the end of the input. -/
def advInv (l : Str) (s : AdvSt) : Prop :=
  s.ch = chAt l s.idx ∧
  ∃ k, s.esc = escapeEach s.val ++ List.replicate k '\\' ∧ (0 < k → s.ch = none)

theorem advStep_inv (l : Str) (f : Nat) (s : AdvSt) (h : advInv l s) :
    advInv l (advStep l f s) := by
  induction f generalizing s with
  | zero => exact h
  | succ f ih =>
    obtain ⟨hch, k, hesc, hk⟩ := h
    unfold advStep
    by_cases hbs : s.ch = some '\\'
    · simp only [if_pos hbs]
      have h2 : advInv l { s with ch := chAt l (s.idx + 1), idx := s.idx + 1, len := s.len + 1 } := by
        refine ⟨rfl, k, hesc, fun hk0 => ?_⟩
        have := hk hk0
        rw [this] at hbs
        exact absurd hbs (by simp)
      split
      · exact ih _ (ih _ h2)
      · exact h2
    · simp only [if_neg hbs]
      cases hcc : s.ch with
      | none =>
        have h2 : advInv l { s with
            esc := s.esc ++ '\\' :: Option.toList (none : Option Char),
            val := s.val ++ Option.toList (none : Option Char),
            ch := chAt l (s.idx + 1), idx := s.idx + 1, len := s.len + 1 } := by
          refine ⟨rfl, k + 1, ?_, fun _ => ?_⟩
          · simp only [Option.toList]
            rw [hesc, List.append_assoc, List.replicate_succ']
            simp
          · have hnone : chAt l s.idx = none := by rw [← hch, hcc]
            exact chAt_none_succ l s.idx hnone
        split
        · exact ih _ (ih _ h2)
        · exact h2
      | some c =>
        have hk0 : k = 0 := by
          rcases Nat.eq_zero_or_pos k with h0 | h0
          · exact h0
          · rw [hk h0] at hcc; exact absurd hcc (by simp)
        subst hk0
        have h2 : advInv l { s with
            esc := s.esc ++ '\\' :: Option.toList (some c),
            val := s.val ++ Option.toList (some c),
            ch := chAt l (s.idx + 1), idx := s.idx + 1, len := s.len + 1 } := by
          refine ⟨rfl, 0, ?_, fun hk0 => absurd hk0 (by simp)⟩
          simp only [Option.toList]
          rw [hesc]
          simp [escapeEach_append, escapeEach]
        split
        · exact ih _ (ih _ h2)
        · exact h2

theorem advLoop_inv (l : Str) (endc : Char) (f : Nat) (s : AdvSt) (h : advInv l s) :
    advInv l (advLoop l endc f s) := by
  induction f generalizing s with
  | zero => exact h
  | succ f ih =>
    unfold advLoop
    cases hcc : s.ch with
    | none => exact h
    | some c =>
      show advInv l (if c = endc then s else advLoop l endc f (advStep l (l.length + 2) s))
      by_cases hce : c = endc
      · rw [if_pos hce]; exact h
      · rw [if_neg hce]; exact ih _ (advStep_inv l (l.length + 2) s h)

theorem advanceTo_esc (l : Str) (endc : Char) :
    ∃ k, (advanceTo l endc).esc =
      escapeEach (advanceTo l endc).val ++ List.replicate k '\\' := by
  have h0 : advInv l { ch := chAt l 0, idx := 0, len := 1, val := [], esc := [] } :=
    ⟨rfl, 0, by simp [escapeEach], fun hk0 => absurd hk0 (by simp)⟩
  obtain ⟨_, k, hesc, _⟩ := advLoop_inv l endc (l.length + 2) _ h0
  exact ⟨k, hesc⟩

/-- C5 (amended): for every quoted span the quoted rule consumes, the node
value is the span's unescaped literal content (`tok.val` of `advanceTo`,
in which backslash-escaped characters have lost their escaping backslash)
with every character prefixed by a backslash, possibly followed by
trailing stray backslashes when the scan runs off the end of the input. -/
theorem c5_quoted_value :
    ∀ (o : Opts) (s : PState) (q : Char) (t : Str) (n : Node) (s' : PState),
      s.input = q :: t → (q = '"' ∨ q = '\'') → q ∈ t →
      ruleQuoted o s = some (n, s') →
      n.type = NType.quoted ∧
      ∃ k, n.val = escapeEach (advanceTo t q).val ++ List.replicate k '\\' := by
  intro o s q t n s' hi hq hmem h
  simp only [ruleQuoted, hi, hq, hmem, if_true, Option.some.injEq, Prod.mk.injEq] at h
  obtain ⟨hn, _⟩ := h
  subst hn
  exact ⟨rfl, advanceTo_esc t q⟩

/-- Witness for C5's amended statement at the concrete input `'a'`. -/
theorem c5_quoted_value_witness :
    ({ type := NType.quoted, val := ['\\', 'a'] } : Node).type = NType.quoted ∧
    ∃ k, (({ type := NType.quoted, val := ['\\', 'a'] } : Node)).val =
      escapeEach (advanceTo ("a'".data) '\'').val ++ List.replicate k '\\' :=
  c5_quoted_value o0 (initState ("'a'".data)) '\'' ("a'".data)
    { type := NType.quoted, val := ['\\', 'a'] }
    { input := [], parsed := ['\''] } rfl (Or.inr rfl) (by decide) (by decide)

/-! ## Claim C9 -/

/-- One rule application either leaves each of the three lazily-set lexer
flags unchanged or assigns it `true`. -/
def FlagMono (s s' : PState) : Prop :=
  (s'.metachar = s.metachar ∨ s'.metachar = true) ∧
  (s'.starFlag = s.starFlag ∨ s'.starFlag = true) ∧
  (s'.globstarFlag = s.globstarFlag ∨ s'.globstarFlag = true)

/-- What every rule application preserves: flag monotonicity and the
structural-context flags (no rule in this file opens or closes a
bracket/brace/paren context). -/
def StepInv (s s' : PState) : Prop :=
  FlagMono s s' ∧ s'.insideBracket = s.insideBracket

theorem rulePre_flags (o : Opts) (s : PState) (s' : PState)
    (h : rulePre o s = some s') : StepInv s s' := by
  simp only [rulePre] at h
  repeat' split at h
  all_goals first
    | exact Option.noConfusion h
    | (obtain rfl := Option.some.inj h
       exact ⟨⟨Or.inl rfl, Or.inl rfl, Or.inl rfl⟩, rfl⟩)

theorem ruleEscape_flags (o : Opts) (s : PState) (n : Node) (s' : PState)
    (h : ruleEscape o s = some (n, s')) : StepInv s s' := by
  simp only [ruleEscape] at h
  repeat' split at h
  all_goals first
    | exact Option.noConfusion h
    | (simp only [Option.some.injEq, Prod.mk.injEq] at h
       obtain ⟨-, hs⟩ := h
       subst hs
       refine ⟨⟨?_, ?_, ?_⟩, ?_⟩ <;> simp [consumeMatch])

theorem ruleQuoted_flags (o : Opts) (s : PState) (n : Node) (s' : PState)
    (h : ruleQuoted o s = some (n, s')) : StepInv s s' := by
  simp only [ruleQuoted] at h
  repeat' split at h
  all_goals first
    | exact Option.noConfusion h
    | (simp only [Option.some.injEq, Prod.mk.injEq] at h
       obtain ⟨-, hs⟩ := h
       subst hs
       refine ⟨⟨?_, ?_, ?_⟩, ?_⟩ <;> simp [consumeMatch])

theorem ruleNot_flags (o : Opts) (s : PState) (n : Node) (s' : PState)
    (h : ruleNot o s = some (n, s')) : StepInv s s' := by
  simp only [ruleNot] at h
  repeat' split at h
  all_goals first
    | exact Option.noConfusion h
    | (simp only [Option.some.injEq, Prod.mk.injEq] at h
       obtain ⟨-, hs⟩ := h
       subst hs
       refine ⟨⟨?_, ?_, ?_⟩, ?_⟩ <;> simp [consumeMatch])

theorem ruleDot_flags (o : Opts) (s : PState) (n : Node) (s' : PState)
    (h : ruleDot o s = some (n, s')) : StepInv s s' := by
  simp only [ruleDot] at h
  repeat' split at h
  all_goals first
    | exact Option.noConfusion h
    | (simp only [Option.some.injEq, Prod.mk.injEq] at h
       obtain ⟨-, hs⟩ := h
       subst hs
       refine ⟨⟨?_, ?_, ?_⟩, ?_⟩ <;> simp [consumeMatch])

theorem rulePlus_flags (o : Opts) (s : PState) (n : Node) (s' : PState)
    (h : rulePlus o s = some (n, s')) : StepInv s s' := by
  simp only [rulePlus] at h
  repeat' split at h
  all_goals first
    | exact Option.noConfusion h
    | (simp only [Option.some.injEq, Prod.mk.injEq] at h
       obtain ⟨-, hs⟩ := h
       subst hs
       refine ⟨⟨?_, ?_, ?_⟩, ?_⟩ <;> simp [consumeMatch])

theorem ruleQmark_flags (o : Opts) (s : PState) (n : Node) (s' : PState)
    (h : ruleQmark o s = some (n, s')) : StepInv s s' := by
  simp only [ruleQmark] at h
  repeat' split at h
  all_goals first
    | exact Option.noConfusion h
    | (simp only [Option.some.injEq, Prod.mk.injEq] at h
       obtain ⟨-, hs⟩ := h
       subst hs
       refine ⟨⟨?_, ?_, ?_⟩, ?_⟩ <;> simp [consumeMatch])

theorem ruleGlobstar_flags (o : Opts) (s : PState) (n : Node) (s' : PState)
    (h : ruleGlobstar o s = some (n, s')) : StepInv s s' := by
  simp only [ruleGlobstar] at h
  repeat' split at h
  all_goals first
    | exact Option.noConfusion h
    | (simp only [Option.some.injEq, Prod.mk.injEq] at h
       obtain ⟨-, hs⟩ := h
       subst hs
       refine ⟨⟨?_, ?_, ?_⟩, ?_⟩ <;> simp [consumeMatch])

theorem ruleStar_flags (o : Opts) (s : PState) (n : Node) (s' : PState)
    (h : ruleStar o s = some (n, s')) : StepInv s s' := by
  simp only [ruleStar] at h
  repeat' split at h
  all_goals first
    | exact Option.noConfusion h
    | (simp only [Option.some.injEq, Prod.mk.injEq] at h
       obtain ⟨-, hs⟩ := h
       subst hs
       refine ⟨⟨?_, ?_, ?_⟩, ?_⟩ <;> simp [consumeMatch])

theorem ruleSlash_flags (o : Opts) (s : PState) (n : Node) (s' : PState)
    (h : ruleSlash o s = some (n, s')) : StepInv s s' := by
  simp only [ruleSlash] at h
  repeat' split at h
  all_goals first
    | exact Option.noConfusion h
    | (simp only [Option.some.injEq, Prod.mk.injEq] at h
       obtain ⟨-, hs⟩ := h
       subst hs
       refine ⟨⟨?_, ?_, ?_⟩, ?_⟩ <;> simp [consumeMatch])

theorem ruleBackslash_flags (o : Opts) (s : PState) (n : Node) (s' : PState)
    (h : ruleBackslash o s = some (n, s')) : StepInv s s' := by
  simp only [ruleBackslash] at h
  repeat' split at h
  all_goals first
    | exact Option.noConfusion h
    | (simp only [Option.some.injEq, Prod.mk.injEq] at h
       obtain ⟨-, hs⟩ := h
       subst hs
       refine ⟨⟨?_, ?_, ?_⟩, ?_⟩ <;> simp [consumeMatch])

theorem ruleSquare_flags (o : Opts) (s : PState) (n : Node) (s' : PState)
    (h : ruleSquare o s = some (n, s')) : StepInv s s' := by
  simp only [ruleSquare] at h
  repeat' split at h
  all_goals first
    | exact Option.noConfusion h
    | (simp only [Option.some.injEq, Prod.mk.injEq] at h
       obtain ⟨-, hs⟩ := h
       subst hs
       refine ⟨⟨?_, ?_, ?_⟩, ?_⟩ <;> simp [consumeMatch])

theorem ruleBracket_flags (o : Opts) (s : PState) (n : Node) (s' : PState)
    (h : ruleBracket o s = some (n, s')) : StepInv s s' := by
  simp only [ruleBracket] at h
  repeat' split at h
  all_goals first
    | exact Option.noConfusion h
    | (simp only [Option.some.injEq, Prod.mk.injEq] at h
       obtain ⟨-, hs⟩ := h
       subst hs
       refine ⟨⟨?_, ?_, ?_⟩, ?_⟩ <;> simp [consumeMatch])

theorem ruleText_flags (o : Opts) (s : PState) (n : Node) (s' : PState)
    (h : ruleText o s = some (n, s')) : StepInv s s' := by
  simp only [ruleText] at h
  repeat' split at h
  all_goals first
    | exact Option.noConfusion h
    | (simp only [Option.some.injEq, Prod.mk.injEq] at h
       obtain ⟨-, hs⟩ := h
       subst hs
       refine ⟨⟨?_, ?_, ?_⟩, ?_⟩ <;> simp [consumeMatch])

theorem ob_elim {α : Type} {a b : Option α} {x : α} (h : ob a b = some x) :
    a = some x ∨ (a = none ∧ b = some x) := by
  unfold ob at h
  cases ha : a with
  | none => rw [ha] at h; exact Or.inr ⟨rfl, h⟩
  | some y => rw [ha] at h; exact Or.inl h

theorem wrapN_elim {r : Opts → PState → Option (Node × PState)} {o : Opts} {s : PState}
    {x : Option Node × PState} (h : wrapN r o s = some x) :
    ∃ n s', r o s = some (n, s') ∧ x = (some n, s') := by
  unfold wrapN at h
  cases hr : r o s with
  | none => rw [hr] at h; exact absurd h (by simp)
  | some p =>
    rw [hr] at h
    exact ⟨p.1, p.2, rfl, (Option.some.inj h).symm⟩

theorem wrapP_elim {r : Opts → PState → Option PState} {o : Opts} {s : PState}
    {x : Option Node × PState} (h : wrapP r o s = some x) :
    ∃ s', r o s = some s' ∧ x = (none, s') := by
  unfold wrapP at h
  cases hr : r o s with
  | none => rw [hr] at h; exact Option.noConfusion h
  | some p => rw [hr] at h; exact ⟨p, rfl, (Option.some.inj h).symm⟩

theorem step_flags (o : Opts) (s : PState) (mn : Option Node) (s' : PState)
    (h : step o s = some (mn, s')) : StepInv s s' := by
  unfold step at h
  rcases ob_elim h with h1 | ⟨-, h⟩
  · obtain ⟨sp, hr, hx⟩ := wrapP_elim h1
    obtain ⟨-, rfl⟩ := Prod.mk.injEq .. ▸ hx
    exact rulePre_flags o s s' hr
  · rcases ob_elim h with h1 | ⟨-, h⟩
    · obtain ⟨n, sx, hr, hx⟩ := wrapN_elim h1
      obtain ⟨-, rfl⟩ := Prod.mk.injEq .. ▸ hx
      exact ruleEscape_flags o s n s' hr
    · rcases ob_elim h with h1 | ⟨-, h⟩
      · obtain ⟨n, sx, hr, hx⟩ := wrapN_elim h1
        obtain ⟨-, rfl⟩ := Prod.mk.injEq .. ▸ hx
        exact ruleQuoted_flags o s n s' hr
      · rcases ob_elim h with h1 | ⟨-, h⟩
        · obtain ⟨n, sx, hr, hx⟩ := wrapN_elim h1
          obtain ⟨-, rfl⟩ := Prod.mk.injEq .. ▸ hx
          exact ruleNot_flags o s n s' hr
        · rcases ob_elim h with h1 | ⟨-, h⟩
          · obtain ⟨n, sx, hr, hx⟩ := wrapN_elim h1
            obtain ⟨-, rfl⟩ := Prod.mk.injEq .. ▸ hx
            exact ruleDot_flags o s n s' hr
          · rcases ob_elim h with h1 | ⟨-, h⟩
            · obtain ⟨n, sx, hr, hx⟩ := wrapN_elim h1
              obtain ⟨-, rfl⟩ := Prod.mk.injEq .. ▸ hx
              exact rulePlus_flags o s n s' hr
            · rcases ob_elim h with h1 | ⟨-, h⟩
              · obtain ⟨n, sx, hr, hx⟩ := wrapN_elim h1
                obtain ⟨-, rfl⟩ := Prod.mk.injEq .. ▸ hx
                exact ruleQmark_flags o s n s' hr
              · rcases ob_elim h with h1 | ⟨-, h⟩
                · obtain ⟨n, sx, hr, hx⟩ := wrapN_elim h1
                  obtain ⟨-, rfl⟩ := Prod.mk.injEq .. ▸ hx
                  exact ruleGlobstar_flags o s n s' hr
                · rcases ob_elim h with h1 | ⟨-, h⟩
                  · obtain ⟨n, sx, hr, hx⟩ := wrapN_elim h1
                    obtain ⟨-, rfl⟩ := Prod.mk.injEq .. ▸ hx
                    exact ruleStar_flags o s n s' hr
                  · rcases ob_elim h with h1 | ⟨-, h⟩
                    · obtain ⟨n, sx, hr, hx⟩ := wrapN_elim h1
                      obtain ⟨-, rfl⟩ := Prod.mk.injEq .. ▸ hx
                      exact ruleSlash_flags o s n s' hr
                    · rcases ob_elim h with h1 | ⟨-, h⟩
                      · obtain ⟨n, sx, hr, hx⟩ := wrapN_elim h1
                        obtain ⟨-, rfl⟩ := Prod.mk.injEq .. ▸ hx
                        exact ruleBackslash_flags o s n s' hr
                      · rcases ob_elim h with h1 | ⟨-, h⟩
                        · obtain ⟨n, sx, hr, hx⟩ := wrapN_elim h1
                          obtain ⟨-, rfl⟩ := Prod.mk.injEq .. ▸ hx
                          exact ruleSquare_flags o s n s' hr
                        · rcases ob_elim h with h1 | ⟨-, h⟩
                          · obtain ⟨n, sx, hr, hx⟩ := wrapN_elim h1
                            obtain ⟨-, rfl⟩ := Prod.mk.injEq .. ▸ hx
                            exact ruleBracket_flags o s n s' hr
                          · obtain ⟨n, sx, hr, hx⟩ := wrapN_elim h
                            obtain ⟨-, rfl⟩ := Prod.mk.injEq .. ▸ hx
                            exact ruleText_flags o s n s' hr

/-- C9: the lexer-state flags for has-metachar, has-wildcard-star and
has-globstar start unset, and every rule application either leaves each
flag unchanged or assigns it `true`; in particular no rule ever moves one
of these flags from `true` back to `false`. -/
theorem c9_monotonic_flags :
    (∀ p : Str, (initState p).metachar = false ∧ (initState p).starFlag = false ∧
      (initState p).globstarFlag = false) ∧
    (∀ (o : Opts) (s : PState) (mn : Option Node) (s' : PState),
      step o s = some (mn, s') →
      FlagMono s s' ∧
      (s.metachar = true → s'.metachar = true) ∧
      (s.starFlag = true → s'.starFlag = true) ∧
      (s.globstarFlag = true → s'.globstarFlag = true)) := by
  refine ⟨fun p => ⟨rfl, rfl, rfl⟩, fun o s mn s' h => ?_⟩
  have hm := (step_flags o s mn s' h).1
  refine ⟨hm, fun hh => ?_, fun hh => ?_, fun hh => ?_⟩
  · rcases hm.1 with h1 | h1
    · rw [h1, hh]
    · exact h1
  · rcases hm.2.1 with h1 | h1
    · rw [h1, hh]
    · exact h1
  · rcases hm.2.2 with h1 | h1
    · rw [h1, hh]
    · exact h1

/-- Witness for C9's step conjunct at a concrete qmark step. -/
theorem c9_monotonic_flags_witness :
    FlagMono (initState ("?x".data))
      { input := ['x'], parsed := ['?'], metachar := true, qmarkFlag := true } ∧
    ((initState ("?x".data)).metachar = true →
      ({ input := ['x'], parsed := ['?'], metachar := true, qmarkFlag := true } : PState).metachar = true) ∧
    ((initState ("?x".data)).starFlag = true →
      ({ input := ['x'], parsed := ['?'], metachar := true, qmarkFlag := true } : PState).starFlag = true) ∧
    ((initState ("?x".data)).globstarFlag = true →
      ({ input := ['x'], parsed := ['?'], metachar := true, qmarkFlag := true } : PState).globstarFlag = true) :=
  c9_monotonic_flags.2 o0 (initState ("?x".data))
    (some { type := NType.qmark, parsed := some [], val := ['?'] })
    { input := ['x'], parsed := ['?'], metachar := true, qmarkFlag := true } (by decide)

/-! ## The bracket rule's escaped-close edge branch

The branch of the bracket rule guarded by `inner === '' && esc === '\]'`
turns out to be unreachable: an empty captured body arises only from the
bare-`[` regex alternative, and whenever the remainder after `[` begins
with `\]` the regex's main alternative matches instead (with `m[2] = '\'`
and `m[3] = ']'`), so the bare alternative never fires there.  The lemmas
below prove this.  Consequently no input can exercise the branch — note
also that in this repository the branch's `close = ch` assignment targets
a `const` binding and would throw if it were ever reached. -/

theorem bracketMatch_m2_none {l : Str} {m : BrM} (h : bracketMatch l = some m)
    (h2 : m.m2 = none) : m.m3 = none ∧ m.m0 = ['['] := by
  unfold bracketMatch at h
  repeat' split at h
  all_goals first
    | exact Option.noConfusion h
    | (obtain rfl := Option.some.inj h; simp_all)

/-- Unreachability of the escaped-close edge branch: when the bracket
regex matches with an empty captured body (the bare `[` alternative), the
remaining input never begins with `\]`. -/
theorem bracketMatch_bare_no_escaped_rbrack (l : Str) (m : BrM)
    (h : bracketMatch l = some m) (h2 : m.m2 = none) :
    (l.drop m.m0.length).take 2 ≠ ['\\', ']'] := by
  intro htake
  obtain ⟨-, hm0⟩ := bracketMatch_m2_none h h2
  rw [hm0] at htake
  rcases l with _ | ⟨c, t⟩
  · exact Option.noConfusion h
  · by_cases hc : c = '['
    · subst hc
      simp only [List.length_cons, List.length_nil, List.drop] at htake
      rcases t with _ | ⟨d, u⟩
      · simp at htake
      · rcases u with _ | ⟨e, v⟩
        · simp at htake
        · simp only [List.take, List.cons.injEq, and_true] at htake
          obtain ⟨rfl, rfl, -⟩ := htake
          have hcomp : bracketMatch ('[' :: '\\' :: ']' :: v) =
              some { m0 := ['[', '\\', ']'], m1 := some [], m2 := some ['\\'],
                     m3 := some [']'] } := by
            simp [bracketMatch, m2m3, m3Match, tryAlt1, takeRun]
          rw [hcomp] at h
          obtain rfl := Option.some.inj h
          exact Option.noConfusion h2
    · unfold bracketMatch at h
      split at h
      · rename_i t2 heq
        obtain ⟨h1, -⟩ := List.cons.injEq .. ▸ heq
        exact absurd h1 hc
      · exact Option.noConfusion h

/-! ## Claim C1: the amended progress property -/

theorem ob_eq_none {α : Type} {a b : Option α} : ob a b = none ↔ a = none ∧ b = none := by
  cases a <;> simp [ob]

theorem wrapN_eq_none {r : Opts → PState → Option (Node × PState)} {o : Opts} {s : PState} :
    wrapN r o s = none ↔ r o s = none := by
  cases h : r o s with
  | none => simp [wrapN, h]
  | some p => cases p; simp [wrapN, h]

theorem wrapP_eq_none {r : Opts → PState → Option PState} {o : Opts} {s : PState} :
    wrapP r o s = none ↔ r o s = none := by
  cases h : r o s with
  | none => simp [wrapP, h]
  | some p => simp [wrapP, h]

theorem step_eq_none_iff (o : Opts) (s : PState) :
    step o s = none ↔
      rulePre o s = none ∧ ruleEscape o s = none ∧ ruleQuoted o s = none ∧
      ruleNot o s = none ∧ ruleDot o s = none ∧ rulePlus o s = none ∧
      ruleQmark o s = none ∧ ruleGlobstar o s = none ∧ ruleStar o s = none ∧
      ruleSlash o s = none ∧ ruleBackslash o s = none ∧ ruleSquare o s = none ∧
      ruleBracket o s = none ∧ ruleText o s = none := by
  unfold step
  simp only [ob_eq_none, wrapN_eq_none, wrapP_eq_none]

theorem ruleNot_none_run (o : Opts) (s : PState) (h : ruleNot o s = none) :
    takeRun (fun c => c = '!') s.input = [] := by
  by_contra hm
  simp only [ruleNot, if_neg hm] at h
  split at h <;> exact Option.noConfusion h

theorem ruleDot_none_run (o : Opts) (s : PState) (h : ruleDot o s = none) :
    takeRun (fun c => c = '.') s.input = [] := by
  by_contra hm
  simp only [ruleDot, if_neg hm] at h
  exact Option.noConfusion h

theorem ruleEscape_none (o : Opts) (s : PState) (hb : s.insideBracket = false)
    (h : ruleEscape o s = none) : escapeMatch s.input = none := by
  cases hm : escapeMatch s.input with
  | none => rfl
  | some p => simp [ruleEscape, hb, hm] at h

theorem ruleQuoted_isSome (o : Opts) (s : PState) (q : Char) (t : Str)
    (hi : s.input = q :: t) (hq : q = '"' ∨ q = '\'') : (ruleQuoted o s).isSome := by
  simp only [ruleQuoted, hi]
  rw [if_pos hq]
  by_cases hm : q ∈ t <;> simp [hm]

theorem ruleQuoted_none_head (o : Opts) (s : PState) (c : Char) (t : Str)
    (hi : s.input = c :: t) (h : ruleQuoted o s = none) : ¬(c = '"' ∨ c = '\'') := by
  intro hq
  have hs := ruleQuoted_isSome o s c t hi hq
  rw [h] at hs
  simp at hs

theorem rulePlus_none_head (o : Opts) (s : PState) (c : Char) (t : Str)
    (hi : s.input = c :: t) (h : rulePlus o s = none) (hc : c = '+') :
    t.head? = some '(' := by
  subst hc
  by_contra hp
  simp [rulePlus, hi, hp] at h

theorem ruleQmark_none (o : Opts) (s : PState) (h : ruleQmark o s = none) :
    qmarkMatch s.input = none := by
  cases hm : qmarkMatch s.input with
  | none => rfl
  | some m0 => simp [ruleQmark, hm] at h

theorem ruleGlobstar_none (o : Opts) (s : PState) (h : ruleGlobstar o s = none) :
    globstarMatch s.input = none := by
  cases hm : globstarMatch s.input with
  | none => rfl
  | some m0 => simp [ruleGlobstar, hm] at h; split at h <;> exact Option.noConfusion h

theorem ruleStar_none (o : Opts) (s : PState) (h : ruleStar o s = none) :
    starMatch s.input = none := by
  cases hm : starMatch s.input with
  | none => rfl
  | some m0 => simp [ruleStar, hm] at h

theorem ruleSlash_none_head (o : Opts) (s : PState) (t : Str)
    (hi : s.input = '/' :: t) (h : ruleSlash o s = none) : False := by
  simp [ruleSlash, hi] at h

theorem ruleBackslash_none (o : Opts) (s : PState) (h : ruleBackslash o s = none) :
    backslashMatch s.input = none := by
  cases hm : backslashMatch s.input with
  | none => rfl
  | some m0 => simp [ruleBackslash, hm] at h

theorem ruleBracket_none (o : Opts) (s : PState) (h : ruleBracket o s = none) :
    bracketMatch s.input = none := by
  cases hm : bracketMatch s.input with
  | none => rfl
  | some m => simp [ruleBracket, hm] at h; split at h <;> exact Option.noConfusion h

theorem ruleText_none (o : Opts) (s : PState) (hb : s.insideBracket = false)
    (h : ruleText o s = none) : textMatch s.input = none := by
  cases hm : textMatch s.input with
  | none => rfl
  | some m0 => simp [ruleText, hb, hm] at h

theorem takeRun_cons_pos {p : Char → Bool} {c : Char} (t : Str) (h : p c = true) :
    takeRun p (c :: t) = c :: takeRun p t := by
  simp [takeRun, h]

theorem escapeMatch_caret (t : Str) (c : Char) (hc : c = '$' ∨ c = '^') :
    (escapeMatch (c :: t)).isSome := by
  rcases hc with rfl | rfl <;> simp [escapeMatch]

theorem escapeMatch_bs (t : Str) (d : Char) (hd : lineTerm d = false) :
    (escapeMatch ('\\' :: d :: t)).isSome := by
  simp [escapeMatch, hd]

theorem backslashMatch_nil : (backslashMatch ['\\']).isSome := by decide

theorem backslashMatch_cons (d : Char) (u : Str) (hd : bsExcluded d = false) :
    (backslashMatch ('\\' :: d :: u)).isSome := by
  simp [backslashMatch, hd]

theorem lineTerm_not_bsExcluded (d : Char) (hd : lineTerm d = true) :
    bsExcluded d = false := by
  simp only [lineTerm, Bool.or_eq_true, decide_eq_true_eq] at hd
  rcases hd with ((rfl | rfl) | rfl) | rfl <;> decide

theorem globstarMatch_end : (globstarMatch ['*', '*']).isSome := by decide

theorem globstarMatch_sep (e : Char) (v : Str) (he : e = ',' ∨ e = ')' ∨ e = '/') :
    (globstarMatch ('*' :: '*' :: e :: v)).isSome := by
  rcases he with rfl | rfl | rfl <;> simp [globstarMatch]

theorem starMatch_lone : (starMatch ['*']).isSome := by decide

theorem starMatch_single (d : Char) (u : Str) (h1 : d ≠ '*') (h2 : d ≠ '(') :
    (starMatch ('*' :: d :: u)).isSome := by
  simp [starMatch, h1, h2]

theorem starMatch_three (u : Str) : (starMatch ('*' :: '*' :: '*' :: u)).isSome := by
  have hrun : takeRun (fun c => c = '*') ('*' :: '*' :: '*' :: u) =
      '*' :: '*' :: '*' :: takeRun (fun c => c = '*') u := by
    simp [takeRun]
  simp only [starMatch, hrun, List.head?_cons, List.length_cons]
  rw [if_neg (by simp)]
  rw [if_pos (by omega)]
  split
  · split
    · simp
    · simp [starA3]
  · simp

theorem starMatch_dstar_paren (v : Str) : (starMatch ('*' :: '*' :: '(' :: v)).isSome := by
  have hrun : takeRun (fun c => c = '*') ('*' :: '*' :: '(' :: v) = ['*', '*'] := by
    simp [takeRun]
  simp only [starMatch, hrun, List.head?_cons, List.length_cons]
  rw [if_neg (by simp)]
  rw [if_neg (by simp)]
  simp [starA3, starA4]

theorem starMatch_dstar_other (e : Char) (v : Str) (h1 : e ≠ '*') (h2 : e ≠ '(')
    (h3 : e ≠ '/') : (starMatch ('*' :: '*' :: e :: v)).isSome := by
  have hrun : takeRun (fun c => c = '*') ('*' :: '*' :: e :: v) = ['*', '*'] := by
    simp [takeRun, h1]
  simp only [starMatch, hrun, List.head?_cons, List.length_cons]
  rw [if_neg (by simp)]
  rw [if_neg (by simp)]
  simp [starA3, h2, h3]

theorem bracketMatch_lbrack (t : Str) : (bracketMatch ('[' :: t)).isSome := by
  simp only [bracketMatch]
  split
  · simp
  · split <;> simp

theorem qmarkMatch_isSome_cons (t : Str) (hnp : t.head? ≠ some '(') :
    (qmarkMatch ('?' :: t)).isSome := by
  have hrun : takeRun (fun c => c = '?') ('?' :: t) = '?' :: takeRun (fun c => c = '?') t := by
    simp [takeRun]
  simp only [qmarkMatch, hrun]
  rw [if_neg (by simp)]
  by_cases hd : ((('?' :: t).drop ('?' :: takeRun (fun c => c = '?') t).length).head? = some '(')
  · rw [if_pos hd]
    have hk : takeRun (fun c => c = '?') t ≠ [] := by
      intro h0
      rw [h0] at hd
      simp at hd
      exact hnp (by simp [hd])
    have h2 : 2 ≤ ('?' :: takeRun (fun c => c = '?') t).length := by
      have := List.length_pos.mpr hk
      simp only [List.length_cons]
      omega
    rw [if_pos h2]
    simp
  · rw [if_neg hd]
    simp

theorem textMatch_star_paren (e : Char) (v : Str) (he : lineTerm e = false) :
    (textMatch ('*' :: '(' :: e :: v)).isSome := by
  simp [textMatch, he]

theorem textMatch_default (c : Char) (t : Str) (hset : textSet c = false)
    (hlt : lineTerm c = false) (hstar : c ≠ '*') : (textMatch (c :: t)).isSome := by
  unfold textMatch
  split
  · rename_i c2 rest heq
    obtain ⟨hc, -⟩ := List.cons.injEq .. ▸ heq
    exact absurd hc hstar
  · simp [textRun, takeRun, hset, hlt]

/-- The stuck shapes: the only remaining inputs (outside a bracket context)
at which no rule of the set matches: a leading line terminator, `+(`, `?(`,
or `*(` at end-of-input or followed by a line terminator. -/
def StuckB (l : Str) : Bool :=
  match l with
  | [] => false
  | c :: t =>
    lineTerm c ||
    (c = '+' && t.head? = some '(') ||
    (c = '?' && t.head? = some '(') ||
    (c = '*' && (match t with
       | '(' :: u => (match u with | [] => true | d :: _ => lineTerm d)
       | _ => false))

theorem step_some_of_not_stuck (o : Opts) (s : PState) (hb : s.insideBracket = false)
    (hne : s.input ≠ []) (hst0 : StuckB s.input = false) : step o s ≠ none := by
  intro h
  rw [step_eq_none_iff] at h
  obtain ⟨hPre, hEsc, hQuo, hNot, hDot, hPlus, hQm, hGs, hStar, hSl, hBs, hSq, hBr, hTx⟩ := h
  have hEsc' := ruleEscape_none o s hb hEsc
  have hNot' := ruleNot_none_run o s hNot
  have hDot' := ruleDot_none_run o s hDot
  have hQm' := ruleQmark_none o s hQm
  have hGs' := ruleGlobstar_none o s hGs
  have hStar' := ruleStar_none o s hStar
  have hBs' := ruleBackslash_none o s hBs
  have hBr' := ruleBracket_none o s hBr
  have hTx' := ruleText_none o s hb hTx
  rcases hin : s.input with _ | ⟨c, t⟩
  · exact hne hin
  rw [hin] at hEsc' hNot' hDot' hQm' hGs' hStar' hBs' hBr' hTx' hst0
  by_cases hq : c = '"' ∨ c = '\''
  · exact (ruleQuoted_none_head o s c t hin hQuo) hq
  by_cases hnotc : c = '!'
  · subst hnotc
    rw [takeRun_cons_pos t (by decide)] at hNot'
    exact List.noConfusion hNot'
  by_cases hdotc : c = '.'
  · subst hdotc
    rw [takeRun_cons_pos t (by decide)] at hDot'
    exact List.noConfusion hDot'
  by_cases hslc : c = '/'
  · subst hslc
    exact ruleSlash_none_head o s t hin hSl
  by_cases hdc : c = '$' ∨ c = '^'
  · have hs := escapeMatch_caret t c hdc
    rw [hEsc'] at hs
    simp at hs
  by_cases hbsc : c = '\\'
  · subst hbsc
    rcases t with _ | ⟨d, u⟩
    · have hs := backslashMatch_nil
      rw [hBs'] at hs
      simp at hs
    · by_cases hld : lineTerm d = true
      · have hs := backslashMatch_cons d u (lineTerm_not_bsExcluded d hld)
        rw [hBs'] at hs
        simp at hs
      · have hs := escapeMatch_bs u d (by simpa using hld)
        rw [hEsc'] at hs
        simp at hs
  by_cases hbrc : c = '['
  · subst hbrc
    have hs := bracketMatch_lbrack t
    rw [hBr'] at hs
    simp at hs
  by_cases hplc : c = '+'
  · have hhd := rulePlus_none_head o s c t hin hPlus hplc
    subst hplc
    have hT : StuckB ('+' :: t) = true := by simp [StuckB, hhd]
    rw [hT] at hst0
    exact Bool.noConfusion hst0
  by_cases hqmc : c = '?'
  · subst hqmc
    by_cases hhd : t.head? = some '('
    · have hT : StuckB ('?' :: t) = true := by simp [StuckB, hhd]
      rw [hT] at hst0
      exact Bool.noConfusion hst0
    · have hs := qmarkMatch_isSome_cons t hhd
      rw [hQm'] at hs
      simp at hs
  by_cases hstc : c = '*'
  · subst hstc
    rcases t with _ | ⟨d, u⟩
    · have hs := starMatch_lone
      rw [hStar'] at hs
      simp at hs
    · by_cases hds : d = '*'
      · subst hds
        rcases u with _ | ⟨e, v⟩
        · have hs := globstarMatch_end
          rw [hGs'] at hs
          simp at hs
        · by_cases hsep : e = ',' ∨ e = ')' ∨ e = '/'
          · have hs := globstarMatch_sep e v hsep
            rw [hGs'] at hs
            simp at hs
          · by_cases hes : e = '*'
            · subst hes
              have hs := starMatch_three v
              rw [hStar'] at hs
              simp at hs
            · by_cases hep : e = '('
              · subst hep
                have hs := starMatch_dstar_paren v
                rw [hStar'] at hs
                simp at hs
              · have hs := starMatch_dstar_other e v hes hep (by tauto)
                rw [hStar'] at hs
                simp at hs
      · by_cases hdp : d = '('
        · subst hdp
          rcases u with _ | ⟨e, v⟩
          · have hT : StuckB ['*', '('] = true := by decide
            rw [hT] at hst0
            exact Bool.noConfusion hst0
          · by_cases hle : lineTerm e = true
            · have hT : StuckB ('*' :: '(' :: e :: v) = true := by simp [StuckB, hle]
              rw [hT] at hst0
              exact Bool.noConfusion hst0
            · have hs := textMatch_star_paren e v (by simpa using hle)
              rw [hTx'] at hs
              simp at hs
        · have hs := starMatch_single d u hds hdp
          rw [hStar'] at hs
          simp at hs
  · have h1 : c ≠ '$' := fun hh => hdc (Or.inl hh)
    have h2 : c ≠ '^' := fun hh => hdc (Or.inr hh)
    have h3 : c ≠ '"' := fun hh => hq (Or.inl hh)
    have h4 : c ≠ '\'' := fun hh => hq (Or.inr hh)
    have hset : textSet c = false := by
      simp [textSet, hbrc, hnotc, hstc, hplc, hqmc, h1, h2, h3, h4, hdotc, hbsc, hslc]
    have hlt : lineTerm c = false := by
      by_contra hl
      have hl' : lineTerm c = true := by simpa using hl
      have hT : StuckB (c :: t) = true := by simp [StuckB, hl']
      rw [hT] at hst0
      exact Bool.noConfusion hst0
    have hs := textMatch_default c t hset hlt hstc
    rw [hTx'] at hs
    simp at hs

/-! ### Every successful rule application consumes at least one character -/

theorem escapeMatch_len (l m0 v : Str) (h : escapeMatch l = some (m0, v)) :
    1 ≤ m0.length := by
  unfold escapeMatch at h
  repeat' split at h
  all_goals first
    | exact Option.noConfusion h
    | (simp only [Option.some.injEq, Prod.mk.injEq] at h
       obtain ⟨rfl, -⟩ := h
       simp)

theorem qmarkMatch_len (l m0 : Str) (h : qmarkMatch l = some m0) : 1 ≤ m0.length := by
  simp only [qmarkMatch] at h
  by_cases hr : takeRun (fun c => c = '?') l = []
  · rw [if_pos hr] at h; exact Option.noConfusion h
  · rw [if_neg hr] at h
    have hpos := List.length_pos.mpr hr
    by_cases hp : ((l.drop (takeRun (fun c => c = '?') l).length).head? = some '(')
    · rw [if_pos hp] at h
      by_cases h2 : 2 ≤ (takeRun (fun c => c = '?') l).length
      · rw [if_pos h2] at h
        obtain rfl := Option.some.inj h
        simp only [List.length_take]
        omega
      · rw [if_neg h2] at h; exact Option.noConfusion h
    · rw [if_neg hp] at h
      obtain rfl := Option.some.inj h
      omega

theorem globstarMatch_len (l m0 : Str) (h : globstarMatch l = some m0) :
    1 ≤ m0.length := by
  simp only [globstarMatch] at h
  repeat' split at h
  all_goals first
    | exact Option.noConfusion h
    | (obtain rfl := Option.some.inj h; simp)

theorem starA3_len (l m0 : Str) (h : starA3 l = some m0) : 1 ≤ m0.length := by
  unfold starA3 at h
  repeat' split at h
  all_goals first
    | exact Option.noConfusion h
    | (obtain rfl := Option.some.inj h; simp)

theorem starA4_len (l m0 : Str) (h : starA4 l = some m0) : 1 ≤ m0.length := by
  unfold starA4 at h
  repeat' split at h
  all_goals first
    | exact Option.noConfusion h
    | (obtain rfl := Option.some.inj h; simp)

theorem starMatch_len (l m0 : Str) (h : starMatch l = some m0) : 1 ≤ m0.length := by
  simp only [starMatch] at h
  split at h
  · rename_i t
    split at h
    · obtain rfl := Option.some.inj h; simp
    · split at h
      · split at h
        · split at h
          · obtain rfl := Option.some.inj h
            simp only [List.length_take]
            omega
          · split at h
            · rename_i m3 hm3
              obtain rfl := Option.some.inj h
              exact starA3_len _ _ hm3
            · exact starA4_len _ _ h
        · obtain rfl := Option.some.inj h
          omega
      · split at h
        · rename_i m3 hm3
          obtain rfl := Option.some.inj h
          exact starA3_len _ _ hm3
        · exact starA4_len _ _ h
  · exact Option.noConfusion h

theorem backslashMatch_len (l m0 : Str) (h : backslashMatch l = some m0) :
    1 ≤ m0.length := by
  unfold backslashMatch at h
  repeat' split at h
  all_goals first
    | exact Option.noConfusion h
    | (obtain rfl := Option.some.inj h; simp)

theorem squareMatch_len (l : Str) (m0 : Str) (c : Char)
    (h : squareMatch l = some (m0, c)) : 1 ≤ m0.length := by
  unfold squareMatch at h
  repeat' split at h
  all_goals first
    | exact Option.noConfusion h
    | (simp only [Option.some.injEq, Prod.mk.injEq] at h
       obtain ⟨rfl, -⟩ := h
       simp)

theorem bracketMatch_m0_len (l : Str) (m : BrM) (h : bracketMatch l = some m) :
    1 ≤ m.m0.length := by
  cases l with
  | nil => exact Option.noConfusion h
  | cons c t =>
    by_cases hc : c = '['
    · subst hc
      simp only [bracketMatch] at h
      split at h
      · rename_i r heq
        obtain rfl := Option.some.inj h
        repeat' split at heq
        all_goals first
          | exact Option.noConfusion heq
          | (obtain rfl := Option.some.inj heq; simp)
      · split at h
        all_goals first
          | exact Option.noConfusion h
          | (obtain rfl := Option.some.inj h; simp)
    · unfold bracketMatch at h
      split at h
      · rename_i t2 heq
        obtain ⟨h1, -⟩ := List.cons.injEq .. ▸ heq
        exact absurd h1 hc
      · exact Option.noConfusion h

theorem textRun_len (l m0 : Str) (h : textRun l = some m0) : 1 ≤ m0.length := by
  simp only [textRun] at h
  split at h
  · exact Option.noConfusion h
  · obtain rfl := Option.some.inj h
    exact List.length_pos.mpr (by assumption)

theorem textMatch_len (l m0 : Str) (h : textMatch l = some m0) : 1 ≤ m0.length := by
  unfold textMatch at h
  split at h
  · split at h
    · exact textRun_len _ _ h
    · obtain rfl := Option.some.inj h; simp
  · exact textRun_len _ _ h

theorem foldGs_len_le (f : Nat) (l : Str) : (foldGs f l).length ≤ l.length := by
  induction f generalizing l with
  | zero => simp [foldGs]
  | succ f ih =>
    unfold foldGs
    split
    · calc (foldGs f (l.drop 3)).length ≤ (l.drop 3).length := ih _
        _ ≤ l.length := by simp [List.length_drop]
    · simp

theorem bscan_len_le (l : Str) : (bscan l).2.2.length ≤ l.length := by
  induction l with
  | nil => simp [bscan]
  | cons c t ih =>
    by_cases hc : c = ']'
    · simp [bscan, hc]
    · rcases hb : bscan t with ⟨ia, cl, rest⟩
      rw [hb] at ih
      simp only [bscan, hc, if_false, hb]
      simp only at ih ⊢
      simp [List.length_cons]
      omega

theorem rulePre_consumes (o : Opts) (s : PState) (s' : PState)
    (h : rulePre o s = some s') : s'.input.length < s.input.length := by
  simp only [rulePre] at h
  by_cases hp : s.parsed ≠ []
  · rw [if_pos hp] at h; exact Option.noConfusion h
  · rw [if_neg hp] at h
    split at h
    · rename_i c tail heq
      split at h
      · obtain rfl := Option.some.inj h
        simp only [consumeMatch, List.length_drop]
        rw [heq]
        simp only [List.length_cons]
        omega
      · exact Option.noConfusion h
    · exact Option.noConfusion h

theorem ruleEscape_consumes (o : Opts) (s : PState) (n : Node) (s' : PState)
    (h : ruleEscape o s = some (n, s')) : s'.input.length < s.input.length := by
  by_cases hb : s.insideBracket
  · simp [ruleEscape, hb] at h
  · cases hm : escapeMatch s.input with
    | none => simp [ruleEscape, hb, hm] at h
    | some p =>
      obtain ⟨m0, v⟩ := p
      simp [ruleEscape, hb, hm] at h
      obtain ⟨-, rfl⟩ := h
      have h1 := escapeMatch_len s.input m0 v hm
      have h2 : s.input ≠ [] := fun hl => by rw [hl] at hm; exact Option.noConfusion hm
      have h3 := List.length_pos.mpr h2
      simp only [consumeMatch, List.length_drop]
      omega

theorem ruleQuoted_consumes (o : Opts) (s : PState) (n : Node) (s' : PState)
    (h : ruleQuoted o s = some (n, s')) : s'.input.length < s.input.length := by
  rcases hin : s.input with _ | ⟨q, t⟩
  · simp [ruleQuoted, hin] at h
  · simp only [ruleQuoted, hin] at h
    by_cases hq : q = '"' ∨ q = '\''
    · rw [if_pos hq] at h
      by_cases hm : q ∈ t
      · rw [if_pos hm] at h
        simp only [Option.some.injEq, Prod.mk.injEq] at h
        obtain ⟨-, rfl⟩ := h
        simp only [List.length_drop, List.length_cons]
        omega
      · rw [if_neg hm] at h
        simp only [Option.some.injEq, Prod.mk.injEq] at h
        obtain ⟨-, rfl⟩ := h
        simp
    · rw [if_neg hq] at h; exact Option.noConfusion h

theorem ruleNot_consumes (o : Opts) (s : PState) (n : Node) (s' : PState)
    (h : ruleNot o s = some (n, s')) : s'.input.length < s.input.length := by
  simp only [ruleNot] at h
  by_cases hr : takeRun (fun c => c = '!') s.input = []
  · rw [if_pos hr] at h; exact Option.noConfusion h
  · rw [if_neg hr] at h
    have h1 := List.length_pos.mpr hr
    have h2 : s.input ≠ [] := by
      intro hl
      rw [hl] at hr
      exact hr rfl
    have h3 := List.length_pos.mpr h2
    split at h
    all_goals
      simp only [Option.some.injEq, Prod.mk.injEq] at h
      obtain ⟨-, rfl⟩ := h
      simp only [consumeMatch, List.length_drop]
      omega

theorem ruleDot_consumes (o : Opts) (s : PState) (n : Node) (s' : PState)
    (h : ruleDot o s = some (n, s')) : s'.input.length < s.input.length := by
  simp only [ruleDot] at h
  by_cases hr : takeRun (fun c => c = '.') s.input = []
  · rw [if_pos hr] at h; exact Option.noConfusion h
  · rw [if_neg hr] at h
    have h1 := List.length_pos.mpr hr
    have h2 : s.input ≠ [] := by
      intro hl
      rw [hl] at hr
      exact hr rfl
    have h3 := List.length_pos.mpr h2
    simp only [Option.some.injEq, Prod.mk.injEq] at h
    obtain ⟨-, rfl⟩ := h
    simp only [consumeMatch, List.length_drop]
    omega

theorem rulePlus_consumes (o : Opts) (s : PState) (n : Node) (s' : PState)
    (h : rulePlus o s = some (n, s')) : s'.input.length < s.input.length := by
  simp only [rulePlus] at h
  split at h
  · rename_i t heq
    split at h
    · exact Option.noConfusion h
    · simp only [Option.some.injEq, Prod.mk.injEq] at h
      obtain ⟨-, rfl⟩ := h
      simp only [consumeMatch, List.length_drop]
      rw [heq]
      simp only [List.length_cons]
      omega
  · exact Option.noConfusion h

theorem ruleQmark_consumes (o : Opts) (s : PState) (n : Node) (s' : PState)
    (h : ruleQmark o s = some (n, s')) : s'.input.length < s.input.length := by
  cases hm : qmarkMatch s.input with
  | none => simp [ruleQmark, hm] at h
  | some m0 =>
    simp only [ruleQmark, hm, Option.some.injEq, Prod.mk.injEq] at h
    obtain ⟨-, rfl⟩ := h
    have h1 := qmarkMatch_len s.input m0 hm
    have h2 : s.input ≠ [] := fun hl => by
      rw [hl] at hm
      simp [qmarkMatch, takeRun] at hm
    have h3 := List.length_pos.mpr h2
    simp only [consumeMatch, List.length_drop]
    omega

theorem ruleGlobstar_consumes (o : Opts) (s : PState) (n : Node) (s' : PState)
    (h : ruleGlobstar o s = some (n, s')) : s'.input.length < s.input.length := by
  cases hm : globstarMatch s.input with
  | none => simp [ruleGlobstar, hm] at h
  | some m0 =>
    have h1 := globstarMatch_len s.input m0 hm
    have h2 : s.input ≠ [] := fun hl => by
      rw [hl] at hm
      exact Option.noConfusion hm
    have h3 := List.length_pos.mpr h2
    have hf := foldGs_len_le (s.input.drop m0.length).length (s.input.drop m0.length)
    simp only [ruleGlobstar, hm] at h
    split at h
    all_goals
      simp only [Option.some.injEq, Prod.mk.injEq] at h
      obtain ⟨-, rfl⟩ := h
      simp only [consumeMatch, List.length_drop] at hf ⊢
      omega

theorem ruleStar_consumes (o : Opts) (s : PState) (n : Node) (s' : PState)
    (h : ruleStar o s = some (n, s')) : s'.input.length < s.input.length := by
  cases hm : starMatch s.input with
  | none => simp [ruleStar, hm] at h
  | some m0 =>
    simp only [ruleStar, hm, Option.some.injEq, Prod.mk.injEq] at h
    obtain ⟨-, rfl⟩ := h
    have h1 := starMatch_len s.input m0 hm
    have h2 : s.input ≠ [] := fun hl => by
      rw [hl] at hm
      exact Option.noConfusion hm
    have h3 := List.length_pos.mpr h2
    simp only [consumeMatch, List.length_drop]
    omega

theorem ruleSlash_consumes (o : Opts) (s : PState) (n : Node) (s' : PState)
    (h : ruleSlash o s = some (n, s')) : s'.input.length < s.input.length := by
  simp only [ruleSlash] at h
  split at h
  · rename_i t heq
    simp only [Option.some.injEq, Prod.mk.injEq] at h
    obtain ⟨-, rfl⟩ := h
    simp only [consumeMatch, List.length_drop]
    rw [heq]
    simp only [List.length_cons]
    omega
  · exact Option.noConfusion h

theorem ruleBackslash_consumes (o : Opts) (s : PState) (n : Node) (s' : PState)
    (h : ruleBackslash o s = some (n, s')) : s'.input.length < s.input.length := by
  cases hm : backslashMatch s.input with
  | none => simp [ruleBackslash, hm] at h
  | some m0 =>
    simp only [ruleBackslash, hm, Option.some.injEq, Prod.mk.injEq] at h
    obtain ⟨-, rfl⟩ := h
    have h1 := backslashMatch_len s.input m0 hm
    have h2 : s.input ≠ [] := fun hl => by
      rw [hl] at hm
      exact Option.noConfusion hm
    have h3 := List.length_pos.mpr h2
    simp only [consumeMatch, List.length_drop]
    omega

theorem ruleSquare_consumes (o : Opts) (s : PState) (n : Node) (s' : PState)
    (h : ruleSquare o s = some (n, s')) : s'.input.length < s.input.length := by
  by_cases hb : s.insideBracket
  · simp [ruleSquare, hb] at h
  · cases hm : squareMatch s.input with
    | none => simp [ruleSquare, hb, hm] at h
    | some p =>
      obtain ⟨m0, c⟩ := p
      simp [ruleSquare, hb, hm] at h
      obtain ⟨-, rfl⟩ := h
      have h1 := squareMatch_len s.input m0 c hm
      have h2 : s.input ≠ [] := fun hl => by
        rw [hl] at hm
        exact Option.noConfusion hm
      have h3 := List.length_pos.mpr h2
      simp only [consumeMatch, List.length_drop]
      omega

theorem ruleBracket_consumes (o : Opts) (s : PState) (n : Node) (s' : PState)
    (h : ruleBracket o s = some (n, s')) : s'.input.length < s.input.length := by
  cases hm : bracketMatch s.input with
  | none => simp [ruleBracket, hm] at h
  | some m =>
    have h1 := bracketMatch_m0_len s.input m hm
    have h2 : s.input ≠ [] := fun hl => by
      rw [hl] at hm
      exact Option.noConfusion hm
    have h3 := List.length_pos.mpr h2
    have hbs := bscan_len_le ((s.input.drop m.m0.length).drop 2)
    simp only [ruleBracket, consumeMatch, hm] at h
    split at h
    all_goals
      simp only [Option.some.injEq, Prod.mk.injEq] at h
      obtain ⟨-, rfl⟩ := h
      simp only [List.length_drop] at hbs ⊢
      omega

theorem ruleText_consumes (o : Opts) (s : PState) (n : Node) (s' : PState)
    (h : ruleText o s = some (n, s')) : s'.input.length < s.input.length := by
  by_cases hb : s.insideBracket
  · simp [ruleText, hb] at h
  · cases hm : textMatch s.input with
    | none => simp [ruleText, hb, hm] at h
    | some m0 =>
      simp [ruleText, hb, hm] at h
      obtain ⟨-, rfl⟩ := h
      have h1 := textMatch_len s.input m0 hm
      have h2 : s.input ≠ [] := fun hl => by
        rw [hl] at hm
        simp [textMatch, textRun, takeRun] at hm
      have h3 := List.length_pos.mpr h2
      simp only [consumeMatch, List.length_drop]
      omega

theorem step_consumes (o : Opts) (s : PState) (mn : Option Node) (s' : PState)
    (h : step o s = some (mn, s')) : s'.input.length < s.input.length := by
  unfold step at h
  rcases ob_elim h with h1 | ⟨-, h⟩
  · obtain ⟨sp, hr, hx⟩ := wrapP_elim h1
    obtain ⟨-, rfl⟩ := Prod.mk.injEq .. ▸ hx
    exact rulePre_consumes o s s' hr
  · rcases ob_elim h with h1 | ⟨-, h⟩
    · obtain ⟨n, sx, hr, hx⟩ := wrapN_elim h1
      obtain ⟨-, rfl⟩ := Prod.mk.injEq .. ▸ hx
      exact ruleEscape_consumes o s n s' hr
    · rcases ob_elim h with h1 | ⟨-, h⟩
      · obtain ⟨n, sx, hr, hx⟩ := wrapN_elim h1
        obtain ⟨-, rfl⟩ := Prod.mk.injEq .. ▸ hx
        exact ruleQuoted_consumes o s n s' hr
      · rcases ob_elim h with h1 | ⟨-, h⟩
        · obtain ⟨n, sx, hr, hx⟩ := wrapN_elim h1
          obtain ⟨-, rfl⟩ := Prod.mk.injEq .. ▸ hx
          exact ruleNot_consumes o s n s' hr
        · rcases ob_elim h with h1 | ⟨-, h⟩
          · obtain ⟨n, sx, hr, hx⟩ := wrapN_elim h1
            obtain ⟨-, rfl⟩ := Prod.mk.injEq .. ▸ hx
            exact ruleDot_consumes o s n s' hr
          · rcases ob_elim h with h1 | ⟨-, h⟩
            · obtain ⟨n, sx, hr, hx⟩ := wrapN_elim h1
              obtain ⟨-, rfl⟩ := Prod.mk.injEq .. ▸ hx
              exact rulePlus_consumes o s n s' hr
            · rcases ob_elim h with h1 | ⟨-, h⟩
              · obtain ⟨n, sx, hr, hx⟩ := wrapN_elim h1
                obtain ⟨-, rfl⟩ := Prod.mk.injEq .. ▸ hx
                exact ruleQmark_consumes o s n s' hr
              · rcases ob_elim h with h1 | ⟨-, h⟩
                · obtain ⟨n, sx, hr, hx⟩ := wrapN_elim h1
                  obtain ⟨-, rfl⟩ := Prod.mk.injEq .. ▸ hx
                  exact ruleGlobstar_consumes o s n s' hr
                · rcases ob_elim h with h1 | ⟨-, h⟩
                  · obtain ⟨n, sx, hr, hx⟩ := wrapN_elim h1
                    obtain ⟨-, rfl⟩ := Prod.mk.injEq .. ▸ hx
                    exact ruleStar_consumes o s n s' hr
                  · rcases ob_elim h with h1 | ⟨-, h⟩
                    · obtain ⟨n, sx, hr, hx⟩ := wrapN_elim h1
                      obtain ⟨-, rfl⟩ := Prod.mk.injEq .. ▸ hx
                      exact ruleSlash_consumes o s n s' hr
                    · rcases ob_elim h with h1 | ⟨-, h⟩
                      · obtain ⟨n, sx, hr, hx⟩ := wrapN_elim h1
                        obtain ⟨-, rfl⟩ := Prod.mk.injEq .. ▸ hx
                        exact ruleBackslash_consumes o s n s' hr
                      · rcases ob_elim h with h1 | ⟨-, h⟩
                        · obtain ⟨n, sx, hr, hx⟩ := wrapN_elim h1
                          obtain ⟨-, rfl⟩ := Prod.mk.injEq .. ▸ hx
                          exact ruleSquare_consumes o s n s' hr
                        · rcases ob_elim h with h1 | ⟨-, h⟩
                          · obtain ⟨n, sx, hr, hx⟩ := wrapN_elim h1
                            obtain ⟨-, rfl⟩ := Prod.mk.injEq .. ▸ hx
                            exact ruleBracket_consumes o s n s' hr
                          · obtain ⟨n, sx, hr, hx⟩ := wrapN_elim h
                            obtain ⟨-, rfl⟩ := Prod.mk.injEq .. ▸ hx
                            exact ruleText_consumes o s n s' hr

theorem runAux_complete_or_stuck (o : Opts) (f : Nat) (s : PState)
    (hb : s.insideBracket = false) (hf : s.input.length ≤ f) :
    (runAux o f s).2.2 = true ∨ StuckB (runAux o f s).2.1.input = true := by
  induction f generalizing s with
  | zero =>
    left
    have hnil : s.input = [] := List.length_eq_zero.mp (Nat.le_zero.mp hf)
    simp [runAux, hnil]
  | succ f ih =>
    unfold runAux
    by_cases hi : s.input = []
    · rw [if_pos hi]
      left
      rfl
    · rw [if_neg hi]
      cases hstep : step o s with
      | none =>
        right
        by_cases hstk : StuckB s.input = true
        · simpa using hstk
        · exact absurd hstep (step_some_of_not_stuck o s hb hi (by simpa using hstk))
      | some p =>
        obtain ⟨mn, s2⟩ := p
        have hlt := step_consumes o s mn s2 hstep
        have hb2 : s2.insideBracket = false := by
          rw [(step_flags o s mn s2 hstep).2, hb]
        have hih := ih s2 hb2 (by omega)
        simpa using hih

/-- C1 (amended): tokenization always terminates, and for every non-empty
pattern it either consumes the entire input or halts with a stuck-shaped
remaining input (a leading line terminator, a leading `+(` or `?(`, or a
leading `*(` at end-of-input or followed by a line terminator); at every
cursor position that is not stuck-shaped, with input remaining, some rule
matches and consumes at least one character, and whenever all structural
rules fail at such a position the catch-all text rule matches and accepts
at least one character. -/
theorem c1_progress_amended :
    (∀ (o : Opts) (p : Str), p ≠ [] →
      (tokenize o p).2.2 = true ∨ StuckB (tokenize o p).2.1.input = true) ∧
    (∀ (o : Opts) (s : PState), s.insideBracket = false → s.input ≠ [] →
      StuckB s.input = false →
      ∃ mn s', step o s = some (mn, s') ∧ s'.input.length < s.input.length) ∧
    (∀ (o : Opts) (s : PState), s.insideBracket = false → s.input ≠ [] →
      StuckB s.input = false →
      rulePre o s = none → ruleEscape o s = none → ruleQuoted o s = none →
      ruleNot o s = none → ruleDot o s = none → rulePlus o s = none →
      ruleQmark o s = none → ruleGlobstar o s = none → ruleStar o s = none →
      ruleSlash o s = none → ruleBackslash o s = none → ruleSquare o s = none →
      ruleBracket o s = none →
      ∃ n s', ruleText o s = some (n, s') ∧ 1 ≤ n.val.length) := by
  refine ⟨fun o p hp => ?_, fun o s hb hne hst => ?_,
    fun o s hb hne hst h1 h2 h3 h4 h5 h6 h7 h8 h9 h10 h11 h12 h13 => ?_⟩
  · exact runAux_complete_or_stuck o (p.length + 1) (initState p) rfl (Nat.le_succ _)
  · have hs := step_some_of_not_stuck o s hb hne hst
    cases hstep : step o s with
    | none => exact absurd hstep hs
    | some p =>
      obtain ⟨mn, s'⟩ := p
      exact ⟨mn, s', rfl, step_consumes o s mn s' hstep⟩
  · have hs := step_some_of_not_stuck o s hb hne hst
    cases htx : ruleText o s with
    | none =>
      exfalso
      apply hs
      rw [step_eq_none_iff]
      exact ⟨h1, h2, h3, h4, h5, h6, h7, h8, h9, h10, h11, h12, h13, htx⟩
    | some p =>
      obtain ⟨n, s'⟩ := p
      refine ⟨n, s', rfl, ?_⟩
      cases hm : textMatch s.input with
      | none => simp [ruleText, hb, hm] at htx
      | some m0 =>
        simp [ruleText, hb, hm] at htx
        obtain ⟨hn, -⟩ := htx
        rw [← hn]
        exact textMatch_len s.input m0 hm

/-- Witness for C1's amended statement at the concrete pattern `ab`. -/
theorem c1_progress_amended_witness :
    (tokenize o0 ("ab".data)).2.2 = true ∨
      StuckB (tokenize o0 ("ab".data)).2.1.input = true :=
  c1_progress_amended.1 o0 ("ab".data) (by decide)

end Nanomatch
